import Mathlib

/-!
Verification of the file-synchronization core of this repository: the
`FilesStore` class (event ingestion, save, modification tracking) and the
`FileTree` helpers `buildFileList` / `filteredFileList`.

The embedding follows the TypeScript source:
* `FileMap` (a JS object keyed by path, insertion-ordered) is an association
  list `List (String × Dirent)`; `setKey` updates in place when the key is
  present and appends otherwise, `setKey _ undefined` (deletion) is `delKey`.
* JS `path.replace(/\/+$/g, '')` is `sanitizePath`, `a.startsWith(b)` is
  `strStartsWith a b`, `'/'.split` plus the `filter(Boolean)` is
  `pathSegments`, both defined over the character list of the string.
* The binary-classification oracle (`getEncoding`-based `isBinaryFile`) and
  the strict UTF-8 decoder (`TextDecoder('utf8', \x7b fatal: true \x7d)`)
  are opaque external collaborators; they are passed in as parameters
  `enc : List Nat → Bool` (true means binary) and
  `dec : List Nat → Option String` (`none` means the decoder throws).
* The external sandbox write in `saveFile` is modelled by its outcome
  `writeOk : Bool`; the TS code performs no local mutation before the
  awaited write resolves, so the failing branch returns the state unchanged.
* `localeCompare`-based name ordering is modelled by code-point ordering on
  the characters (`strLE`), and the stable JS `Array.sort` by a stable
  insertion sort over the corresponding relation.
-/

namespace Bolt

/-- JS `a.startsWith(b)`: is `pre` a prefix of `s` (character-wise). -/
def strStartsWith (s pre : String) : Bool :=
  pre.data.isPrefixOf s.data

/-- JS `path.replace(/\/+$/g, '')`: strip all trailing slash characters. -/
def sanitizePath (p : String) : String :=
  String.mk ((p.data.reverse.dropWhile (fun c => c = '/')).reverse)

/-- Splitter for JS `s.split('/')`: cut the character list at every slash. -/
def splitSlashAux : List Char → List Char → List String
  | [], acc => [String.mk acc.reverse]
  | c :: rest, acc =>
    if c = '/' then String.mk acc.reverse :: splitSlashAux rest []
    else splitSlashAux rest (c :: acc)

/-- JS `path.split('/').filter((segment) => segment)`. -/
def pathSegments (p : String) : List String :=
  (splitSlashAux p.data []).filter (fun s => s ≠ "")

/-- The `FileMap` value type: `'file' | 'folder'` dirents (absent paths are
    simply missing keys, mirroring `setKey(path, undefined)` deletion). -/
inductive Dirent where
  | file (content : String) (isBinary : Bool)
  | folder
  deriving DecidableEq, Repr

/-- `FileMap`: a JS object keyed by path, in insertion order. -/
abbrev FileMap := List (String × Dirent)

/-- nanostores `setKey` on a JS object: replace in place when present,
    append when absent. -/
def setKey : FileMap → String → Dirent → FileMap
  | [], p, d => [(p, d)]
  | (k, v) :: rest, p, d =>
    if k = p then (p, d) :: rest else (k, v) :: setKey rest p d

/-- nanostores `setKey path undefined`: delete the key. -/
def delKey (m : FileMap) (p : String) : FileMap :=
  m.filter (fun kv => !(kv.1 == p))

/-- The mutable fields of `FilesStore` touched by the claims: the `#files`
    map, the `#size` counter (a JS number, here `Int` since it is only ever
    incremented and decremented), the `#modifiedFiles` insertion-ordered
    `Map<string, string>`, and the `#lockedFiles` map. -/
structure FilesState where
  files : FileMap
  size : Int
  modifiedFiles : List (String × String)
  lockedFiles : List (String × Bool)
  deriving DecidableEq, Repr

/-- The freshly constructed store: empty maps, zero counter. -/
def initialState : FilesState :=
  { files := [], size := 0, modifiedFiles := [], lockedFiles := [] }

/-- `isBinaryFile`: `undefined` buffers are not binary, otherwise ask the
    `getEncoding` oracle `enc`. -/
def isBinaryFile (enc : List Nat → Bool) : Option (List Nat) → Bool
  | none => false
  | some buffer => enc buffer

/-- `FilesStore.#decodeFileContent`: empty or missing buffers decode to
    `''`; a decoder throw (`dec buffer = none`) is caught and yields `''`. -/
def decodeFileContent (dec : List Nat → Option String) :
    Option (List Nat) → String
  | none => ""
  | some buffer =>
    if buffer.length = 0 then "" else (dec buffer).getD ""

/-- The dirent written by an `add_file`/`change` event: `content` stays `''`
    when the payload is classified binary, otherwise it is the decoded
    text. -/
def mkFileDirent (enc : List Nat → Bool) (dec : List Nat → Option String)
    (buffer : Option (List Nat)) : Dirent :=
  let isBin := isBinaryFile enc buffer
  Dirent.file (if isBin then "" else decodeFileContent dec buffer) isBin

/-- `PathWatcherEvent`s consumed by `#processEventBuffer` (file payloads are
    byte lists). -/
inductive WatchEvent where
  | add_dir (path : String)
  | remove_dir (path : String)
  | add_file (path : String) (buffer : Option (List Nat))
  | change (path : String) (buffer : Option (List Nat))
  | remove_file (path : String)
  | update_directory (path : String)
  deriving DecidableEq, Repr

/-- One iteration of the `switch` in `FilesStore.#processEventBuffer`. -/
def applyEvent (enc : List Nat → Bool) (dec : List Nat → Option String)
    (s : FilesState) (e : WatchEvent) : FilesState :=
  match e with
  | .add_dir p =>
    { s with files := setKey s.files (sanitizePath p) .folder }
  | .remove_dir p =>
    let sp := sanitizePath p
    let afterDelete := delKey s.files sp
    { s with files := afterDelete.filter (fun kv => !(strStartsWith kv.1 sp)) }
  | .add_file p buffer =>
    { s with
      size := s.size + 1
      files := setKey s.files (sanitizePath p) (mkFileDirent enc dec buffer) }
  | .change p buffer =>
    { s with
      files := setKey s.files (sanitizePath p) (mkFileDirent enc dec buffer) }
  | .remove_file p =>
    { s with size := s.size - 1, files := delKey s.files (sanitizePath p) }
  | .update_directory _ => s

/-- `FilesStore.#processEventBuffer` on the `events.flat(2)` flattened
    batch: apply the events in arrival order. -/
def processEventBuffer (enc : List Nat → Bool)
    (dec : List Nat → Option String) (s : FilesState)
    (events : List WatchEvent) : FilesState :=
  events.foldl (applyEvent enc dec) s

/-- `FilesStore.getFile`: the content when the dirent is a file, otherwise
    `undefined`. -/
def getFile (s : FilesState) (filePath : String) : Option String :=
  match List.lookup filePath s.files with
  | some (.file content _) => some content
  | _ => none

/-- `FilesStore.getFileModifications`: the keys of `#modifiedFiles`. -/
def getFileModifications (s : FilesState) : List String :=
  s.modifiedFiles.map (fun kv => kv.1)

/-- `FilesStore.resetFileModifications`: clear `#modifiedFiles`. -/
def resetFileModifications (s : FilesState) : FilesState :=
  { s with modifiedFiles := [] }

/-- `FilesStore.saveFile`. `writeOk` is the outcome of the awaited external
    `webcontainer.fs.writeFile` call (which receives the workdir-relative
    translation of the path); every local mutation in the TS source happens
    after that await resolves, so the failing branch leaves the state
    untouched and reports failure (`false`), mirroring the rethrow. On
    success, the previous content is snapshotted into `#modifiedFiles` when
    it is truthy (non-empty) and no snapshot exists yet, and the map entry
    becomes a non-binary file with the new content. -/
def saveFile (s : FilesState) (filePath content : String) (writeOk : Bool) :
    FilesState × Bool :=
  let oldContent := getFile s filePath
  if writeOk then
    let mods :=
      match oldContent with
      | some oc =>
        if oc ≠ "" ∧ (List.lookup filePath s.modifiedFiles).isNone then
          s.modifiedFiles ++ [(filePath, oc)]
        else s.modifiedFiles
      | none => s.modifiedFiles
    ({ s with
        files := setKey s.files filePath (.file content false)
        modifiedFiles := mods },
      true)
  else (s, false)

/-- Concrete classification oracle used in closed examples: nothing is
    binary. -/
def encNone : List Nat → Bool := fun _ => false

/-- Concrete decoder used in closed examples: every decode throws. -/
def decNone : List Nat → Option String := fun _ => none

/-- The value the event would force at path `q`, if it affects `q`:
    `some (some d)` when the event writes dirent `d` there, `some none` when
    it removes `q` (directly, or by the `startsWith` cascade of a
    `remove_dir`), and `none` when the event does not touch `q`. -/
def eventEffect (enc : List Nat → Bool) (dec : List Nat → Option String)
    (e : WatchEvent) (q : String) : Option (Option Dirent) :=
  match e with
  | .add_dir p =>
    if q = sanitizePath p then some (some .folder) else none
  | .remove_dir p =>
    if strStartsWith q (sanitizePath p) then some none else none
  | .add_file p buffer =>
    if q = sanitizePath p then some (some (mkFileDirent enc dec buffer))
    else none
  | .change p buffer =>
    if q = sanitizePath p then some (some (mkFileDirent enc dec buffer))
    else none
  | .remove_file p =>
    if q = sanitizePath p then some none else none
  | .update_directory _ => none

/-- The effect of the most recent event of the batch affecting path `q`. -/
def lastEffect (enc : List Nat → Bool) (dec : List Nat → Option String)
    (events : List WatchEvent) (q : String) : Option (Option Dirent) :=
  events.foldl
    (fun acc e =>
      match eventEffect enc dec e q with
      | some v => some v
      | none => acc)
    none

/-- Did some event of the batch remove path `q` or a `startsWith`-prefix of
    it as a directory (regardless of later events)? -/
def receivedRemoveDir (events : List WatchEvent) (q : String) : Bool :=
  events.any (fun e =>
    match e with
    | .remove_dir p => strStartsWith q (sanitizePath p)
    | _ => false)

/-- The increment applied to `#size` by one event: only `add_file`
    increments and only `remove_file` decrements. -/
def sizeDelta : WatchEvent → Int
  | .add_file _ _ => 1
  | .remove_file _ => -1
  | _ => 0

/-- `dirent?.type === 'file'`. -/
def direntIsFile : Dirent → Bool
  | .file _ _ => true
  | .folder => false

/-- The `kind` discriminant of `FileTree` nodes. -/
inductive NodeKind where
  | file
  | folder
  deriving DecidableEq, Repr

/-- A `FileTree` node: `id` is the position in the unsorted build list. -/
structure Node where
  kind : NodeKind
  id : Nat
  name : String
  fullPath : String
  depth : Nat
  deriving DecidableEq, Repr

/-- The kind a map entry contributes as a tree node. -/
def direntKind : Dirent → NodeKind
  | .file _ _ => NodeKind.file
  | .folder => NodeKind.folder

/-- The `(kind, fullPath)` identity of a node, used to compare the built
    node list against the map entries. -/
def nodeKey (n : Node) : NodeKind × String := (n.kind, n.fullPath)

/-- Code-point comparison of character lists, the model of the
    `localeCompare`-based name ordering. -/
def charListLE : List Char → List Char → Bool
  | [], _ => true
  | _ :: _, [] => false
  | a :: as, b :: bs =>
    if a.toNat = b.toNat then charListLE as bs else decide (a.toNat < b.toNat)

/-- Name ordering on strings (see `charListLE`). -/
def strLE (a b : String) : Bool := charListLE a.data b.data

/-- The comparator of `buildFileList`'s final `sort`: folders sort before
    files; within the same kind, by name. -/
def nodeLE (a b : Node) : Prop :=
  (a.kind = NodeKind.folder ∧ b.kind = NodeKind.file) ∨
    (a.kind = b.kind ∧ strLE a.name b.name = true)

instance : DecidableRel nodeLE := fun a b => by
  unfold nodeLE
  infer_instance

instance : IsTotal Node nodeLE := by
  constructor
  have htot : ∀ x y : List Char, charListLE x y = true ∨ charListLE y x = true := by
    intro x
    induction x with
    | nil => intro y; left; rfl
    | cons c cs ih =>
      intro y
      cases y with
      | nil => right; rfl
      | cons d ds =>
        by_cases hcd : c.toNat = d.toNat
        · rcases ih ds with h | h
          · left
            simp [charListLE, hcd, h]
          · right
            simp [charListLE, hcd.symm, h]
        · rcases Nat.lt_or_ge c.toNat d.toNat with h | h
          · left
            simp [charListLE, hcd, h]
          · have hdc : d.toNat ≠ c.toNat := fun he => hcd he.symm
            have h2 : d.toNat < c.toNat := Nat.lt_of_le_of_ne h hdc
            right
            simp [charListLE, hdc, h2]
  intro a b
  by_cases hab : a.kind = b.kind
  · rcases htot a.name.data b.name.data with h | h
    · exact Or.inl (Or.inr ⟨hab, h⟩)
    · exact Or.inr (Or.inr ⟨hab.symm, h⟩)
  · cases ha : a.kind <;> cases hb : b.kind
    · exact absurd (ha.trans hb.symm) hab
    · exact Or.inr (Or.inl ⟨hb, ha⟩)
    · exact Or.inl (Or.inl ⟨ha, hb⟩)
    · exact absurd (ha.trans hb.symm) hab

instance : IsTrans Node nodeLE := by
  constructor
  have htr : ∀ x y z : List Char,
      charListLE x y = true → charListLE y z = true → charListLE x z = true := by
    intro x
    induction x with
    | nil => intro y z _ _; rfl
    | cons c cs ih =>
      intro y z hxy hyz
      cases y with
      | nil => simp [charListLE] at hxy
      | cons d ds =>
        cases z with
        | nil => simp [charListLE] at hyz
        | cons e es =>
          by_cases h1 : c.toNat = d.toNat
          · by_cases h2 : d.toNat = e.toNat
            · have h3 : c.toNat = e.toNat := h1.trans h2
              simp only [charListLE, h1, if_pos] at hxy
              simp only [charListLE, h2, if_pos] at hyz
              simp only [charListLE, h3, if_pos]
              exact ih ds es hxy hyz
            · simp only [charListLE, h2, if_neg] at hyz
              have hde : d.toNat < e.toNat := by
                simpa using hyz
              have h3 : c.toNat ≠ e.toNat := by omega
              have h4 : c.toNat < e.toNat := by omega
              simp [charListLE, h3, h4]
          · simp only [charListLE, h1, if_neg] at hxy
            have hcd : c.toNat < d.toNat := by
              simpa using hxy
            by_cases h2 : d.toNat = e.toNat
            · have h3 : c.toNat ≠ e.toNat := by omega
              have h4 : c.toNat < e.toNat := by omega
              simp [charListLE, h3, h4]
            · simp only [charListLE, h2, if_neg] at hyz
              have hde : d.toNat < e.toNat := by
                simpa using hyz
              have h3 : c.toNat ≠ e.toNat := by omega
              have h4 : c.toNat < e.toNat := by omega
              simp [charListLE, h3, h4]
  intro a b c hab hbc
  rcases hab with ⟨ha, hb⟩ | ⟨hab, hs1⟩
  · rcases hbc with ⟨hb2, hc⟩ | ⟨hbc, hs2⟩
    · exact absurd (hb.symm.trans hb2) (by simp)
    · exact Or.inl ⟨ha, hbc ▸ hb⟩
  · rcases hbc with ⟨hb2, hc⟩ | ⟨hbc, hs2⟩
    · exact Or.inl ⟨hab.trans hb2, hc⟩
    · exact Or.inr ⟨hab.trans hbc, htr _ _ _ hs1 hs2⟩

/-- The chain of `currentPath += '/' + name` values produced while walking
    `segs` from `cur`: the candidate node paths of one map entry. -/
def prefixPaths : List String → String → List String
  | [], _ => []
  | name :: rest, cur => (cur ++ "/" ++ name) :: prefixPaths rest (cur ++ "/" ++ name)

/-- The paths a map entry can contribute as folder nodes: every walked
    prefix, except that a file entry's own (last) path is emitted as a file
    node instead. -/
def folderCandidates (e : String × Dirent) : List String :=
  if direntIsFile e.2 then (prefixPaths (pathSegments e.1) "").dropLast
  else prefixPaths (pathSegments e.1) ""

/-- A hidden-file pattern: a plain string (matched with `includes`) or a
    regular expression, modelled as an opaque test function. -/
inductive HiddenPattern where
  | str (s : String)
  | regex (test : String → Bool)

/-- JS `s.includes(sub)`: contiguous substring test. -/
def listIsInfix : List Char → List Char → Bool
  | pat, [] => pat.isEmpty
  | pat, c :: t => pat.isPrefixOf (c :: t) || listIsInfix pat t

/-- JS `s.includes(sub)`. -/
def strIncludes (s sub : String) : Bool := listIsInfix sub.data s.data

/-- `isHiddenFile` from `FileTree.tsx`: any pattern matching the full path
    or the file name hides the entry. -/
def isHiddenFile (filePath fileName : String)
    (hiddenFiles : List HiddenPattern) : Bool :=
  hiddenFiles.any (fun pr =>
    match pr with
    | .str s => strIncludes filePath s || strIncludes fileName s
    | .regex t => t filePath || t fileName)

/-- The `while (i < segments.length)` walk of one map entry inside
    `buildFileList`: `folderPaths` is the seen-set of emitted folders,
    `fileList` the accumulated output (node ids are positions). -/
def walkSegs (isFile : Bool) (rootFolder : String) (hideRoot : Bool)
    (defaultDepth : Nat) :
    List String → String → Nat → List String → List Node →
      List String × List Node
  | [], _, _, folderPaths, fileList => (folderPaths, fileList)
  | name :: rest, currentPath, depth, folderPaths, fileList =>
    let fullPath := currentPath ++ "/" ++ name
    if !(strStartsWith fullPath rootFolder) || (hideRoot && fullPath == rootFolder) then
      walkSegs isFile rootFolder hideRoot defaultDepth rest fullPath depth
        folderPaths fileList
    else
      let nodeDepth := depth + (if hideRoot then 0 else defaultDepth)
      if rest.isEmpty && isFile then
        walkSegs isFile rootFolder hideRoot defaultDepth rest fullPath
          (depth + 1) folderPaths
          (fileList ++
            [{ kind := NodeKind.file, id := fileList.length, name := name,
                fullPath := fullPath, depth := nodeDepth }])
      else if folderPaths.contains fullPath then
        walkSegs isFile rootFolder hideRoot defaultDepth rest fullPath
          (depth + 1) folderPaths fileList
      else
        walkSegs isFile rootFolder hideRoot defaultDepth rest fullPath
          (depth + 1) (folderPaths ++ [fullPath])
          (fileList ++
            [{ kind := NodeKind.folder, id := fileList.length, name := name,
                fullPath := fullPath, depth := nodeDepth }])

/-- The `for (const [filePath, dirent] of Object.entries(files))` loop of
    `buildFileList`. -/
def buildGo (rootFolder : String) (hideRoot : Bool)
    (hiddenFiles : List HiddenPattern) (defaultDepth : Nat) :
    List (String × Dirent) → List String → List Node →
      List String × List Node
  | [], folderPaths, fileList => (folderPaths, fileList)
  | (filePath, dirent) :: rest, folderPaths, fileList =>
    let normalizedPath :=
      if strStartsWith filePath "/" then filePath else "/" ++ filePath
    let segments := pathSegments normalizedPath
    match segments.getLast? with
    | none =>
      buildGo rootFolder hideRoot hiddenFiles defaultDepth rest folderPaths
        fileList
    | some fileName =>
      if isHiddenFile normalizedPath fileName hiddenFiles then
        buildGo rootFolder hideRoot hiddenFiles defaultDepth rest folderPaths
          fileList
      else
        let st := walkSegs (direntIsFile dirent) rootFolder hideRoot
          defaultDepth segments "" 0 folderPaths fileList
        buildGo rootFolder hideRoot hiddenFiles defaultDepth rest st.1 st.2

/-- `buildFileList` from `FileTree.tsx`: seed the synthetic root when the
    root folder is `/` and not hidden, walk every map entry, and sort the
    result (stable, folders before files, by name within a kind). -/
def buildFileList (files : List (String × Dirent)) (rootFolder : String)
    (hideRoot : Bool) (hiddenFiles : List HiddenPattern) : List Node :=
  let defaultDepth := if rootFolder = "/" ∧ ¬hideRoot then 1 else 0
  let seed : List Node :=
    if rootFolder = "/" ∧ ¬hideRoot then
      [{ kind := NodeKind.folder, name := "/", depth := 0, id := 0,
          fullPath := "/" }]
    else []
  List.insertionSort nodeLE
    (buildGo rootFolder hideRoot hiddenFiles defaultDepth files [] seed).2

/-- The loop of the `filteredFileList` memo: `lastDepth` is the suppression
    threshold, `none` standing for `Number.MAX_SAFE_INTEGER` (no
    suppression; node depths are always below it). -/
def filterLoop (collapsedFolders : List String) :
    List Node → Option Nat → List Node
  | [], _ => []
  | node :: rest, lastDepth =>
    let ld1 := if lastDepth = some node.depth then none else lastDepth
    let ld2 :=
      if collapsedFolders.contains node.fullPath then
        some
          (match ld1 with
          | none => node.depth
          | some d => min d node.depth)
      else ld1
    if ld2.elim false (fun d => decide (d < node.depth)) then
      filterLoop collapsedFolders rest ld2
    else node :: filterLoop collapsedFolders rest ld2

/-- `filteredFileList`: drop the subtrees of collapsed folders. -/
def filteredFileList (fileList : List Node)
    (collapsedFolders : List String) : List Node :=
  filterLoop collapsedFolders fileList none

theorem lookup_cons_same {β : Type} (k q : String) (v : β)
    (rest : List (String × β)) (h : q = k) :
    List.lookup q ((k, v) :: rest) = some v := by
  simp [List.lookup_cons, h]

theorem lookup_cons_other {β : Type} (k q : String) (v : β)
    (rest : List (String × β)) (h : q ≠ k) :
    List.lookup q ((k, v) :: rest) = List.lookup q rest := by
  simp [List.lookup_cons, beq_false_of_ne h]

theorem lookup_setKey (m : FileMap) (p : String) (d : Dirent) (q : String) :
    List.lookup q (setKey m p d) = if q = p then some d else List.lookup q m := by
  induction m with
  | nil =>
    by_cases h : q = p
    · simp [setKey, lookup_cons_same _ _ _ _ h, h]
    · simp [setKey, lookup_cons_other _ _ _ _ h, h, List.lookup_nil]
  | cons kv rest ih =>
    obtain ⟨k, v⟩ := kv
    by_cases hkp : k = p
    · subst hkp
      by_cases hq : q = k
      · simp [setKey, lookup_cons_same _ _ _ _ hq, hq]
      · simp [setKey, lookup_cons_other _ _ _ _ hq, hq]
    · by_cases hq : q = k
      · have hqp : q ≠ p := fun he => hkp (hq.symm.trans he)
        simp [setKey, hkp, lookup_cons_same _ _ _ _ hq, hqp]
      · simp [setKey, hkp, lookup_cons_other _ _ _ _ hq, ih]

theorem lookup_filterKeys (P : String → Bool) (m : FileMap) (q : String) :
    List.lookup q (m.filter (fun kv => P kv.1)) =
      if P q then List.lookup q m else none := by
  induction m with
  | nil => by_cases h : P q <;> simp [List.lookup, h]
  | cons kv rest ih =>
    obtain ⟨k, v⟩ := kv
    by_cases hq : q = k
    · subst hq
      by_cases h : P q
      · simp [List.filter, h, lookup_cons_same _ _ _ _ rfl]
      · simp [List.filter, h, ih]
    · by_cases hk : P k
      · simp [List.filter, hk, lookup_cons_other _ _ _ _ hq, ih]
      · simp [List.filter, hk, lookup_cons_other _ _ _ _ hq, ih]

theorem lookup_delKey (m : FileMap) (p q : String) :
    List.lookup q (delKey m p) = if q = p then none else List.lookup q m := by
  have h := lookup_filterKeys (fun k => !(k == p)) m q
  simp only [delKey] at *
  rw [h]
  by_cases hq : q = p <;> simp [hq]

theorem lookup_applyEvent (enc : List Nat → Bool)
    (dec : List Nat → Option String) (s : FilesState) (e : WatchEvent)
    (q : String) :
    List.lookup q (applyEvent enc dec s e).files =
      (eventEffect enc dec e q).getD (List.lookup q s.files) := by
  cases e with
  | add_dir p =>
    simp only [applyEvent, eventEffect, lookup_setKey]
    by_cases h : q = sanitizePath p <;> simp [h]
  | remove_dir p =>
    simp only [applyEvent, eventEffect]
    rw [lookup_filterKeys (fun k => !(strStartsWith k (sanitizePath p)))]
    by_cases h : strStartsWith q (sanitizePath p)
    · simp [h]
    · have hne : q ≠ sanitizePath p := by
        intro he
        subst he
        exact h (by simp [strStartsWith, List.isPrefixOf_iff_prefix])
      simp [h, lookup_delKey, hne]
  | add_file p buffer =>
    simp only [applyEvent, eventEffect, lookup_setKey]
    by_cases h : q = sanitizePath p <;> simp [h]
  | change p buffer =>
    simp only [applyEvent, eventEffect, lookup_setKey]
    by_cases h : q = sanitizePath p <;> simp [h]
  | remove_file p =>
    simp only [applyEvent, eventEffect, lookup_delKey]
    by_cases h : q = sanitizePath p <;> simp [h]
  | update_directory p =>
    simp [applyEvent, eventEffect]

theorem lastEffect_foldl_shift (enc : List Nat → Bool)
    (dec : List Nat → Option String) (events : List WatchEvent) (q : String)
    (a : Option (Option Dirent)) :
    events.foldl
        (fun acc e =>
          match eventEffect enc dec e q with
          | some v => some v
          | none => acc)
        a =
      match lastEffect enc dec events q with
      | some v => some v
      | none => a := by
  induction events generalizing a with
  | nil => simp [lastEffect]
  | cons e es ih =>
    rw [List.foldl_cons]
    rw [ih]
    have h2 : lastEffect enc dec (e :: es) q =
        match lastEffect enc dec es q with
        | some v => some v
        | none => eventEffect enc dec e q := by
      simp only [lastEffect, List.foldl_cons]
      rw [ih]
      cases eventEffect enc dec e q <;> rfl
    rw [h2]
    cases lastEffect enc dec es q <;> cases h3 : eventEffect enc dec e q <;> rfl

theorem lookup_processEventBuffer (enc : List Nat → Bool)
    (dec : List Nat → Option String) (s : FilesState)
    (events : List WatchEvent) (q : String) :
    List.lookup q (processEventBuffer enc dec s events).files =
      (lastEffect enc dec events q).getD (List.lookup q s.files) := by
  induction events generalizing s with
  | nil => rfl
  | cons e es ih =>
    have h1 : processEventBuffer enc dec s (e :: es) =
        processEventBuffer enc dec (applyEvent enc dec s e) es := rfl
    rw [h1, ih, lookup_applyEvent]
    have h2 : lastEffect enc dec (e :: es) q =
        match lastEffect enc dec es q with
        | some v => some v
        | none => eventEffect enc dec e q := by
      simp only [lastEffect, List.foldl_cons]
      rw [lastEffect_foldl_shift]
      cases eventEffect enc dec e q <;> rfl
    rw [h2]
    cases lastEffect enc dec es q <;> cases eventEffect enc dec e q <;> rfl

/-- Claim C1, as frozen, is refuted: in the batch
    `[remove_dir "/a", add_dir "/a"]` the path `/a` receives a
    directory-removed event, yet after processing it is present in the map
    (the later `add_dir` re-creates it), so "every path that received a
    directory-removed event is absent" fails. -/
theorem claimC1_counterexample :
    receivedRemoveDir [WatchEvent.remove_dir "/a", WatchEvent.add_dir "/a"]
        "/a" = true ∧
      List.lookup "/a"
          (processEventBuffer encNone decNone initialState
            [WatchEvent.remove_dir "/a", WatchEvent.add_dir "/a"]).files =
        some Dirent.folder := by
  decide

/-- Claim C1, amended: after `#processEventBuffer`, the entry of every path
    `q` is determined by the most recent event affecting `q` — an event
    whose sanitized path is `q`, or a `remove_dir` whose sanitized path is a
    `startsWith`-prefix of `q`: the map holds that event's dirent when it is
    an addition, `q` is absent when it is a removal, and the prior entry
    survives when no event affects `q`. In particular a path whose most
    recent affecting event is a directory removal (of it or of a prefix of
    it, with no later re-add) is absent, and every present path holds the
    value of its most recent non-removal event. -/
theorem claimC1_lastEventDeterminesEntry :
    (∀ (enc : List Nat → Bool) (dec : List Nat → Option String)
        (s : FilesState) (events : List WatchEvent) (q : String),
        List.lookup q (processEventBuffer enc dec s events).files =
          (lastEffect enc dec events q).getD (List.lookup q s.files)) ∧
      (∀ (enc : List Nat → Bool) (dec : List Nat → Option String)
        (events : List WatchEvent) (q : String),
        lastEffect enc dec events q = some none →
          List.lookup q
            (processEventBuffer enc dec initialState events).files = none) ∧
      (∀ (enc : List Nat → Bool) (dec : List Nat → Option String)
        (events : List WatchEvent) (q : String) (d : Dirent),
        lastEffect enc dec events q = some (some d) →
          List.lookup q
            (processEventBuffer enc dec initialState events).files = some d) := by
  refine ⟨fun enc dec s events q => lookup_processEventBuffer enc dec s events q, ?_, ?_⟩
  · intro enc dec events q h
    rw [lookup_processEventBuffer, h]
    rfl
  · intro enc dec events q d h
    rw [lookup_processEventBuffer, h]
    rfl

/-- Witness for the hypotheses of `claimC1_lastEventDeterminesEntry`: a
    cascade removal (`remove_dir "/src"` wiping `/src/a.ts`) hits the
    absence clause, and a plain `add_dir` hits the presence clause. -/
theorem claimC1_lastEventDeterminesEntry_witness :
    (lastEffect encNone decNone
          [WatchEvent.add_file "/src/a.ts" none, WatchEvent.remove_dir "/src"]
          "/src/a.ts" = some none ∧
        List.lookup "/src/a.ts"
          (processEventBuffer encNone decNone initialState
            [WatchEvent.add_file "/src/a.ts" none,
              WatchEvent.remove_dir "/src"]).files = none) ∧
      (lastEffect encNone decNone [WatchEvent.add_dir "/b"] "/b" =
          some (some Dirent.folder) ∧
        List.lookup "/b"
          (processEventBuffer encNone decNone initialState
            [WatchEvent.add_dir "/b"]).files = some Dirent.folder) :=
  ⟨⟨by decide,
      claimC1_lastEventDeterminesEntry.2.1 encNone decNone
        [WatchEvent.add_file "/src/a.ts" none, WatchEvent.remove_dir "/src"]
        "/src/a.ts" (by decide)⟩,
    ⟨by decide,
      claimC1_lastEventDeterminesEntry.2.2 encNone decNone
        [WatchEvent.add_dir "/b"] "/b" Dirent.folder (by decide)⟩⟩

/-- Claim C2: when the external sandbox write fails, `saveFile` reports the
    failure to its caller and performs no local mutation at all — the store
    state (in particular the `FileMap` and the `ModificationSet`) is exactly
    the state before the call. In the TS source every local mutation happens
    after the awaited external write resolves, which the embedding reflects
    by the failing branch returning the input state. -/
theorem claimC2_saveFile_failure_atomic :
    ∀ (s : FilesState) (filePath content : String),
      saveFile s filePath content false = (s, false) := by
  intro s filePath content
  rfl

/-- Claim C7: processing the same batch twice (the second pass observing
    the same payloads) yields the same final `FileMap` — pointwise, every
    path holds the same entry — as processing it once, from any starting
    state. -/
theorem claimC7_processEventBuffer_idempotent :
    ∀ (enc : List Nat → Bool) (dec : List Nat → Option String)
      (s : FilesState) (events : List WatchEvent) (q : String),
      List.lookup q
          (processEventBuffer enc dec (processEventBuffer enc dec s events)
            events).files =
        List.lookup q (processEventBuffer enc dec s events).files := by
  intro enc dec s events q
  rw [lookup_processEventBuffer, lookup_processEventBuffer]
  cases lastEffect enc dec events q <;> rfl

/-- Claim C8: a `remove_dir` event for path `p` removes every map entry
    whose path has the sanitized `p` as a character-wise prefix
    (`startsWith`), not only descendants — e.g. removing `/src` also
    removes a sibling `/src2`. -/
theorem claimC8_removeDir_stringPrefix_cascade :
    ∀ (enc : List Nat → Bool) (dec : List Nat → Option String)
      (s : FilesState) (p q : String),
      strStartsWith q (sanitizePath p) = true →
        List.lookup q (applyEvent enc dec s (WatchEvent.remove_dir p)).files =
          none := by
  intro enc dec s p q h
  rw [lookup_applyEvent]
  simp [eventEffect, h]

/-- Witness for `claimC8_removeDir_stringPrefix_cascade`: removing `/src`
    deletes the sibling entry `/src2` that merely shares the character
    prefix. -/
theorem claimC8_removeDir_stringPrefix_cascade_witness :
    strStartsWith "/src2" (sanitizePath "/src") = true ∧
      List.lookup "/src2"
        (applyEvent encNone decNone
          { files := [("/src", Dirent.folder), ("/src2", Dirent.folder)],
            size := 0, modifiedFiles := [], lockedFiles := [] }
          (WatchEvent.remove_dir "/src")).files = none :=
  ⟨by decide,
    claimC8_removeDir_stringPrefix_cascade encNone decNone
      { files := [("/src", Dirent.folder), ("/src2", Dirent.folder)],
        size := 0, modifiedFiles := [], lockedFiles := [] }
      "/src" "/src2" (by decide)⟩

/-- Claim C9: `filesCount` (the `#size` counter) changes only on `add_file`
    (+1) and `remove_file` (−1); a `remove_dir` leaves it unchanged even
    while its cascade deletes file entries; `remove_file` decrements even
    when the path is absent, so the counter can go negative, and re-adding
    an existing file inflates it past the real entry count. -/
theorem claimC9_filesCount_drift :
    (∀ (enc : List Nat → Bool) (dec : List Nat → Option String)
        (s : FilesState) (e : WatchEvent),
        (applyEvent enc dec s e).size = s.size + sizeDelta e) ∧
      (applyEvent encNone decNone
            { files := [("/d", Dirent.folder), ("/d/f", Dirent.file "x" false)],
              size := 2, modifiedFiles := [], lockedFiles := [] }
            (WatchEvent.remove_dir "/d")).size = 2 ∧
      (applyEvent encNone decNone
            { files := [("/d", Dirent.folder), ("/d/f", Dirent.file "x" false)],
              size := 2, modifiedFiles := [], lockedFiles := [] }
            (WatchEvent.remove_dir "/d")).files = [] ∧
      (processEventBuffer encNone decNone initialState
          [WatchEvent.remove_file "/a"]).size = -1 ∧
      (processEventBuffer encNone decNone initialState
          [WatchEvent.add_file "/a" none, WatchEvent.add_file "/a" none]).size =
        2 ∧
      (processEventBuffer encNone decNone initialState
          [WatchEvent.add_file "/a" none,
            WatchEvent.add_file "/a" none]).files.length = 1 := by
  refine ⟨?_, by decide, by decide, by decide, by decide, by decide⟩
  intro enc dec s e
  cases e <;> simp [applyEvent, sizeDelta]
  omega

/-- Claim C3: when the stored file at `p` has non-empty prior content and
    no snapshot exists yet, a successful `saveFile` snapshots the prior
    content into `#modifiedFiles` and overwrites the entry with the new
    content as a non-binary file; a second successful `saveFile` updates the
    entry again but leaves the snapshot at the first captured value, until
    `resetFileModifications` clears it. -/
theorem claimC3_firstWriteWins_snapshot :
    ∀ (s : FilesState) (p oldC c1 c2 : String) (bin : Bool),
      List.lookup p s.files = some (Dirent.file oldC bin) →
      oldC ≠ "" →
      List.lookup p s.modifiedFiles = none →
      List.lookup p ((saveFile s p c1 true).1).files =
          some (Dirent.file c1 false) ∧
        List.lookup p ((saveFile s p c1 true).1).modifiedFiles = some oldC ∧
        List.lookup p
            ((saveFile (saveFile s p c1 true).1 p c2 true).1).files =
          some (Dirent.file c2 false) ∧
        List.lookup p
            ((saveFile (saveFile s p c1 true).1 p c2 true).1).modifiedFiles =
          some oldC ∧
        (resetFileModifications
            (saveFile (saveFile s p c1 true).1 p c2 true).1).modifiedFiles =
          [] := by
  intro s p oldC c1 c2 bin h1 h2 h3
  have hgf : getFile s p = some oldC := by simp [getFile, h1]
  have hm1 : ((saveFile s p c1 true).1).modifiedFiles =
      s.modifiedFiles ++ [(p, oldC)] := by
    simp [saveFile, hgf, h2, h3]
  have hl1 : List.lookup p ((saveFile s p c1 true).1).files =
      some (Dirent.file c1 false) := by
    rw [show ((saveFile s p c1 true).1).files =
        setKey s.files p (Dirent.file c1 false) from rfl, lookup_setKey]
    simp
  have hlm1 : List.lookup p ((saveFile s p c1 true).1).modifiedFiles =
      some oldC := by
    rw [hm1, List.lookup_append, h3]
    simp [lookup_cons_same p p oldC [] rfl]
  have hgf2 : getFile (saveFile s p c1 true).1 p = some c1 := by
    simp [getFile, hl1]
  have hm2gen : ∀ t : FilesState, getFile t p = some c1 →
      List.lookup p t.modifiedFiles = some oldC →
      ((saveFile t p c2 true).1).modifiedFiles = t.modifiedFiles := by
    intro t hg hlm
    simp [saveFile, hg, hlm]
  have hm2 : ((saveFile (saveFile s p c1 true).1 p c2 true).1).modifiedFiles =
      ((saveFile s p c1 true).1).modifiedFiles :=
    hm2gen (saveFile s p c1 true).1 hgf2 hlm1
  have hf2 : List.lookup p
      ((saveFile (saveFile s p c1 true).1 p c2 true).1).files =
      some (Dirent.file c2 false) := by
    rw [show ((saveFile (saveFile s p c1 true).1 p c2 true).1).files =
        setKey ((saveFile s p c1 true).1).files p (Dirent.file c2 false) from
        rfl, lookup_setKey]
    simp
  exact ⟨hl1, hlm1, hf2, by rw [hm2]; exact hlm1, rfl⟩

/-- Witness for `claimC3_firstWriteWins_snapshot`: the spec scenario —
    saving `bye` over `hi` at `/src/a.ts` snapshots `hi`; saving `bye2`
    afterwards leaves the snapshot at `hi`. -/
theorem claimC3_firstWriteWins_snapshot_witness :
    (List.lookup "/src/a.ts"
          ({ files := [("/src/a.ts", Dirent.file "hi" false)], size := 1,
              modifiedFiles := [], lockedFiles := [] } : FilesState).files =
        some (Dirent.file "hi" false) ∧
      "hi" ≠ "" ∧
      List.lookup "/src/a.ts"
          ({ files := [("/src/a.ts", Dirent.file "hi" false)], size := 1,
              modifiedFiles := [], lockedFiles := [] } :
            FilesState).modifiedFiles = none) ∧
      (List.lookup "/src/a.ts"
          ((saveFile
              { files := [("/src/a.ts", Dirent.file "hi" false)], size := 1,
                modifiedFiles := [], lockedFiles := [] }
              "/src/a.ts" "bye" true).1).modifiedFiles = some "hi" ∧
        List.lookup "/src/a.ts"
          ((saveFile
              (saveFile
                { files := [("/src/a.ts", Dirent.file "hi" false)], size := 1,
                  modifiedFiles := [], lockedFiles := [] }
                "/src/a.ts" "bye" true).1
              "/src/a.ts" "bye2" true).1).modifiedFiles = some "hi") :=
  ⟨⟨by decide, by decide, by decide⟩,
    (claimC3_firstWriteWins_snapshot
        { files := [("/src/a.ts", Dirent.file "hi" false)], size := 1,
          modifiedFiles := [], lockedFiles := [] }
        "/src/a.ts" "hi" "bye" "bye2" false (by decide) (by decide)
        (by decide)).2.1,
    (claimC3_firstWriteWins_snapshot
        { files := [("/src/a.ts", Dirent.file "hi" false)], size := 1,
          modifiedFiles := [], lockedFiles := [] }
        "/src/a.ts" "hi" "bye" "bye2" false (by decide) (by decide)
        (by decide)).2.2.2.1⟩

/-- Claim C6: an `add_file`/`change` payload classified binary is stored
    with empty content and `isBinary = true`; a text payload whose strict
    UTF-8 decode throws is stored with empty content (`isBinary = false`)
    and the event is processed normally — no error escapes. -/
theorem claimC6_binary_and_decodeFailure :
    ∀ (enc : List Nat → Bool) (dec : List Nat → Option String)
      (s : FilesState) (p : String) (buffer : Option (List Nat)),
      (isBinaryFile enc buffer = true →
        List.lookup (sanitizePath p)
            (applyEvent enc dec s (WatchEvent.add_file p buffer)).files =
          some (Dirent.file "" true) ∧
        List.lookup (sanitizePath p)
            (applyEvent enc dec s (WatchEvent.change p buffer)).files =
          some (Dirent.file "" true)) ∧
      (∀ bytes : List Nat, buffer = some bytes →
        isBinaryFile enc buffer = false → dec bytes = none →
        List.lookup (sanitizePath p)
            (applyEvent enc dec s (WatchEvent.add_file p buffer)).files =
          some (Dirent.file "" false) ∧
        List.lookup (sanitizePath p)
            (applyEvent enc dec s (WatchEvent.change p buffer)).files =
          some (Dirent.file "" false)) := by
  intro enc dec s p buffer
  constructor
  · intro hbin
    constructor <;>
      · simp only [applyEvent, lookup_setKey]
        simp [mkFileDirent, hbin]
  · intro bytes hbuf hbin hdec
    subst hbuf
    constructor <;>
      · simp only [applyEvent, lookup_setKey]
        by_cases hl : bytes.length = 0 <;>
          simp [mkFileDirent, hbin, decodeFileContent, hdec, hl]

/-- Witness for `claimC6_binary_and_decodeFailure`: with a classifier that
    calls a payload containing a zero byte binary and a decoder that always
    throws, the payload `[0]` is stored as a binary file with empty content
    and the payload `[1]` (text, decode fails) as an empty text file. -/
theorem claimC6_binary_and_decodeFailure_witness :
    (isBinaryFile (fun bs => bs.contains 0) (some [0]) = true ∧
        List.lookup (sanitizePath "/b.bin")
          (applyEvent (fun bs => bs.contains 0) decNone initialState
            (WatchEvent.add_file "/b.bin" (some [0]))).files =
          some (Dirent.file "" true)) ∧
      (isBinaryFile (fun bs => bs.contains 0) (some [1]) = false ∧
        decNone [1] = none ∧
        List.lookup (sanitizePath "/t.txt")
          (applyEvent (fun bs => bs.contains 0) decNone initialState
            (WatchEvent.change "/t.txt" (some [1]))).files =
          some (Dirent.file "" false)) :=
  ⟨⟨by decide,
      ((claimC6_binary_and_decodeFailure (fun bs => bs.contains 0) decNone
            initialState "/b.bin" (some [0])).1 (by decide)).1⟩,
    ⟨by decide, rfl,
      ((claimC6_binary_and_decodeFailure (fun bs => bs.contains 0) decNone
            initialState "/t.txt" (some [1])).2 [1] rfl (by decide) rfl).2⟩⟩

/-- Claim C10, as frozen, is refuted: starting from a stored binary file at
    `/f` whose content is empty, the first successful save records no
    snapshot, but a second successful save finds the (now non-empty) content
    of the first save and does record one — `/f` then appears in
    `getFileModifications`, contradicting "never appears no matter how many
    times it is saved". -/
theorem claimC10_counterexample :
    getFile
        { files := [("/f", Dirent.file "" true)], size := 1,
          modifiedFiles := [], lockedFiles := [] } "/f" = some "" ∧
      (saveFile
          { files := [("/f", Dirent.file "" true)], size := 1,
            modifiedFiles := [], lockedFiles := [] } "/f" "x" true).2 =
        true ∧
      getFileModifications
          ((saveFile
              (saveFile
                { files := [("/f", Dirent.file "" true)], size := 1,
                  modifiedFiles := [], lockedFiles := [] }
                "/f" "x" true).1
              "/f" "y" true).1) = ["/f"] := by
  decide

/-- Claim C10, amended: a single successful `saveFile` on a path whose
    current stored content is empty — binary files, empty text files, and
    absent or folder paths, where `getFile` yields `undefined` — records no
    modification snapshot in that call (the `ModificationSet` is unchanged);
    the path may still enter `getFileModifications` through a later save,
    once the stored content is no longer empty. -/
theorem claimC10_emptyContent_noSnapshot :
    ∀ (s : FilesState) (p c : String),
      (getFile s p = none ∨ getFile s p = some "") →
      ((saveFile s p c true).1).modifiedFiles = s.modifiedFiles := by
  intro s p c h
  rcases h with h | h <;> simp [saveFile, h]

/-- Witness for `claimC10_emptyContent_noSnapshot`: saving over a stored
    empty binary file records no snapshot. -/
theorem claimC10_emptyContent_noSnapshot_witness :
    (getFile
          { files := [("/f", Dirent.file "" true)], size := 1,
            modifiedFiles := [], lockedFiles := [] } "/f" = none ∨
        getFile
          { files := [("/f", Dirent.file "" true)], size := 1,
            modifiedFiles := [], lockedFiles := [] } "/f" = some "") ∧
      ((saveFile
            { files := [("/f", Dirent.file "" true)], size := 1,
              modifiedFiles := [], lockedFiles := [] }
            "/f" "x" true).1).modifiedFiles =
        ({ files := [("/f", Dirent.file "" true)], size := 1,
            modifiedFiles := [], lockedFiles := [] } : FilesState).modifiedFiles :=
  ⟨by decide,
    claimC10_emptyContent_noSnapshot
      { files := [("/f", Dirent.file "" true)], size := 1,
        modifiedFiles := [], lockedFiles := [] }
      "/f" "x" (by decide)⟩

theorem filterLoop_nil_collapsed : ∀ l : List Node, filterLoop [] l none = l := by
  intro l
  induction l with
  | nil => rfl
  | cons n rest ih => simp [filterLoop, ih]

theorem filteredFileList_nil_collapsed (l : List Node) :
    filteredFileList l [] = l :=
  filterLoop_nil_collapsed l

theorem prefixPaths_length :
    ∀ (segs : List String) (cur : String),
      (prefixPaths segs cur).length = segs.length := by
  intro segs
  induction segs with
  | nil => intro cur; rfl
  | cons name rest ih => intro cur; simp [prefixPaths, ih]

theorem string_length_data (s : String) : s.length = s.data.length := rfl

theorem prefixPaths_longer :
    ∀ (segs : List String) (cur : String), ∀ q ∈ prefixPaths segs cur,
      cur.length < q.length := by
  intro segs
  induction segs with
  | nil => intro cur q hq; simp [prefixPaths] at hq
  | cons name rest ih =>
    intro cur q hq
    have hlen : (cur ++ "/" ++ name).length = cur.length + 1 + name.length := by
      have h1 : ("/" : String).length = 1 := rfl
      simp [String.length_append, h1]
    simp only [prefixPaths, List.mem_cons] at hq
    rcases hq with rfl | hq
    · omega
    · have h := ih (cur ++ "/" ++ name) q hq
      omega

theorem prefixPaths_nodup :
    ∀ (segs : List String) (cur : String), (prefixPaths segs cur).Nodup := by
  intro segs
  induction segs with
  | nil => intro cur; exact List.nodup_nil
  | cons name rest ih =>
    intro cur
    rw [prefixPaths, List.nodup_cons]
    constructor
    · intro hmem
      exact Nat.lt_irrefl _ (prefixPaths_longer rest (cur ++ "/" ++ name) _ hmem)
    · exact ih (cur ++ "/" ++ name)

theorem strStartsWith_slash_iff (q : String) :
    strStartsWith q "/" = true ↔ ∃ t, q.data = '/' :: t := by
  unfold strStartsWith
  have hd : ("/" : String).data = ['/'] := rfl
  rw [hd]
  cases hq : q.data with
  | nil => simp [List.isPrefixOf]
  | cons c cs =>
    simp only [List.isPrefixOf, Bool.and_eq_true, beq_iff_eq]
    constructor
    · rintro ⟨rfl, -⟩
      exact ⟨cs, rfl⟩
    · rintro ⟨t, ht⟩
      injection ht with h1 h2
      exact ⟨h1.symm, trivial⟩

theorem strStartsWith_slash_append (cur name : String)
    (h : cur = "" ∨ strStartsWith cur "/" = true) :
    strStartsWith (cur ++ "/" ++ name) "/" = true := by
  rcases h with rfl | h
  · rw [strStartsWith_slash_iff]
    refine ⟨name.data, ?_⟩
    rw [String.data_append, String.data_append]
    rfl
  · rw [strStartsWith_slash_iff] at h ⊢
    obtain ⟨t, ht⟩ := h
    refine ⟨t ++ '/' :: name.data, ?_⟩
    have hd : ("/" : String).data = ['/'] := rfl
    rw [String.data_append, String.data_append, ht, hd]
    simp

theorem string_ne_of_length_ne {a b : String} (h : a.length ≠ b.length) :
    a ≠ b := fun he => h (he ▸ rfl)

theorem appended_ne_slash (cur name : String) (hname : name ≠ "") :
    (cur ++ "/" ++ name) = "/" → False := by
  intro he
  have hpos : 0 < name.length := by
    rcases Nat.eq_zero_or_pos name.length with h0 | h0
    · exfalso
      apply hname
      have hd : name.data = [] := List.length_eq_zero.mp h0
      exact String.ext hd
    · exact h0
  have hlen : (cur ++ "/" ++ name).length = cur.length + 1 + name.length := by
    have h1 : ("/" : String).length = 1 := rfl
    simp [String.length_append, h1]
  have h2 : ("/" : String).length = 1 := rfl
  rw [he, h2] at hlen
  omega

theorem contains_true_iff (l : List String) (q : String) :
    l.contains q = true ↔ q ∈ l := by
  simp [List.contains, List.elem_iff]

theorem contains_append_single_ne (seen : List String) (fp q : String)
    (hne : q ≠ fp) : (seen ++ [fp]).contains q = seen.contains q := by
  by_cases h : q ∈ seen
  · rw [(contains_true_iff _ _).mpr h,
      (contains_true_iff _ _).mpr (List.mem_append.mpr (Or.inl h))]
  · have h1 : ¬seen.contains q = true := fun hc =>
      h ((contains_true_iff _ _).mp hc)
    have h2 : ¬(seen ++ [fp]).contains q = true := fun hc => by
      rcases List.mem_append.mp ((contains_true_iff _ _).mp hc) with hm | hm
      · exact h hm
      · exact hne (List.mem_singleton.mp hm)
    rw [Bool.not_eq_true] at h1 h2
    rw [h1, h2]

theorem getLast?_cons_of_ne_nil {α : Type} (a : α) (l : List α)
    (h : l ≠ []) : (a :: l).getLast? = l.getLast? := by
  cases l with
  | nil => exact absurd rfl h
  | cons b bs => rw [List.getLast?_cons_cons]

theorem walkSegs_step (isFile hideRoot : Bool) (dd : Nat)
    (name : String) (rest : List String) (cur : String) (depth : Nat)
    (seen : List String) (out : List Node)
    (hsw : strStartsWith (cur ++ "/" ++ name) "/" = true)
    (hne : (cur ++ "/" ++ name) ≠ "/") :
    walkSegs isFile "/" hideRoot dd (name :: rest) cur depth seen out =
      if rest.isEmpty && isFile then
        walkSegs isFile "/" hideRoot dd rest (cur ++ "/" ++ name) (depth + 1)
          seen
          (out ++
            [{ kind := NodeKind.file, id := out.length, name := name,
                fullPath := cur ++ "/" ++ name,
                depth := depth + (if hideRoot then 0 else dd) }])
      else if seen.contains (cur ++ "/" ++ name) then
        walkSegs isFile "/" hideRoot dd rest (cur ++ "/" ++ name) (depth + 1)
          seen out
      else
        walkSegs isFile "/" hideRoot dd rest (cur ++ "/" ++ name) (depth + 1)
          (seen ++ [cur ++ "/" ++ name])
          (out ++
            [{ kind := NodeKind.folder, id := out.length, name := name,
                fullPath := cur ++ "/" ++ name,
                depth := depth + (if hideRoot then 0 else dd) }]) := by
  have hne2 : ((cur ++ "/" ++ name) == "/") = false := beq_eq_false_iff_ne.mpr hne
  simp only [walkSegs, hsw, hne2, Bool.not_true, Bool.and_false, Bool.false_or,
    Bool.if_false_left, Bool.and_true]
  cases hideRoot <;> simp

theorem walkSegs_spec (isFile hideRoot : Bool) (dd : Nat) :
    ∀ (segs : List String) (cur : String) (depth : Nat) (seen : List String)
      (out : List Node),
      (∀ s ∈ segs, s ≠ "") →
      (cur = "" ∨ strStartsWith cur "/" = true) →
      (walkSegs isFile "/" hideRoot dd segs cur depth seen out).1 =
          seen ++
            ((if isFile then (prefixPaths segs cur).dropLast
              else prefixPaths segs cur).filter fun q => !(seen.contains q)) ∧
        (walkSegs isFile "/" hideRoot dd segs cur depth seen out).2.map nodeKey =
          out.map nodeKey ++
            (((if isFile then (prefixPaths segs cur).dropLast
               else prefixPaths segs cur).filter fun q =>
                  !(seen.contains q)).map fun q => (NodeKind.folder, q)) ++
            (if isFile then
              (match (prefixPaths segs cur).getLast? with
                | some q => [(NodeKind.file, q)]
                | none => ([] : List (NodeKind × String)))
            else []) := by
  intro segs
  induction segs with
  | nil =>
    intro cur depth seen out hseg hcur
    cases isFile <;> simp [walkSegs, prefixPaths]
  | cons name rest ih =>
    intro cur depth seen out hseg hcur
    have hname : name ≠ "" := hseg name (List.mem_cons_self _ _)
    have hsw : strStartsWith (cur ++ "/" ++ name) "/" = true :=
      strStartsWith_slash_append cur name hcur
    have hne : (cur ++ "/" ++ name) ≠ "/" := fun he =>
      appended_ne_slash cur name hname he
    rw [walkSegs_step isFile hideRoot dd name rest cur depth seen out hsw hne]
    have hseg2 : ∀ s ∈ rest, s ≠ "" := fun s hs =>
      hseg s (List.mem_cons_of_mem _ hs)
    have hcur2 : (cur ++ "/" ++ name) = "" ∨
        strStartsWith (cur ++ "/" ++ name) "/" = true := Or.inr hsw
    by_cases hrf : (rest.isEmpty && isFile) = true
    · rw [if_pos hrf]
      rw [Bool.and_eq_true] at hrf
      obtain ⟨hre, hif⟩ := hrf
      have hrest : rest = [] := List.isEmpty_iff.mp hre
      subst hrest
      subst hif
      constructor
      · simp [walkSegs, prefixPaths]
      · simp [walkSegs, prefixPaths, nodeKey]
    · rw [if_neg hrf]
      have hrefile : isFile = true →
          prefixPaths rest (cur ++ "/" ++ name) ≠ [] := by
        intro hf h0
        apply hrf
        have hlen := prefixPaths_length rest (cur ++ "/" ++ name)
        rw [h0] at hlen
        have hrest : rest = [] := List.length_eq_zero.mp hlen.symm
        rw [hrest, hf]
        rfl
      have hQF : (if isFile then (prefixPaths (name :: rest) cur).dropLast
            else prefixPaths (name :: rest) cur) =
          (cur ++ "/" ++ name) ::
            (if isFile then
              (prefixPaths rest (cur ++ "/" ++ name)).dropLast
            else prefixPaths rest (cur ++ "/" ++ name)) := by
        cases hf : isFile
        · simp [prefixPaths]
        · simp [prefixPaths,
            List.dropLast_cons_of_ne_nil (hrefile hf)]
      have hTail : (if isFile then
            (match (prefixPaths (name :: rest) cur).getLast? with
              | some q => [(NodeKind.file, q)]
              | none => ([] : List (NodeKind × String)))
          else []) =
          (if isFile then
            (match (prefixPaths rest (cur ++ "/" ++ name)).getLast? with
              | some q => [(NodeKind.file, q)]
              | none => ([] : List (NodeKind × String)))
          else []) := by
        cases hf : isFile
        · rfl
        · have h1 : prefixPaths (name :: rest) cur =
              (cur ++ "/" ++ name) :: prefixPaths rest (cur ++ "/" ++ name) :=
            rfl
          rw [h1, getLast?_cons_of_ne_nil _ _ (hrefile hf)]
      by_cases hc : seen.contains (cur ++ "/" ++ name) = true
      · rw [if_pos hc]
        have hmem : (cur ++ "/" ++ name) ∈ seen := (contains_true_iff _ _).mp hc
        obtain ⟨ih1, ih2⟩ :=
          ih (cur ++ "/" ++ name) (depth + 1) seen out hseg2 hcur2
        constructor
        · rw [ih1, hQF]
          simp [List.filter_cons, hmem]
        · rw [ih2, hQF, hTail]
          simp [List.filter_cons, hmem]
      · rw [if_neg hc]
        have hcF : seen.contains (cur ++ "/" ++ name) = false := by
          revert hc
          cases seen.contains (cur ++ "/" ++ name) <;> simp
        obtain ⟨ih1, ih2⟩ :=
          ih (cur ++ "/" ++ name) (depth + 1)
            (seen ++ [cur ++ "/" ++ name])
            (out ++
              [{ kind := NodeKind.folder, id := out.length, name := name,
                  fullPath := cur ++ "/" ++ name,
                  depth := depth + (if hideRoot then 0 else dd) }])
            hseg2 hcur2
        have hfiltereq : ((if isFile then
              (prefixPaths rest (cur ++ "/" ++ name)).dropLast
            else prefixPaths rest (cur ++ "/" ++ name)).filter fun q =>
              !((seen ++ [cur ++ "/" ++ name]).contains q)) =
            ((if isFile then
              (prefixPaths rest (cur ++ "/" ++ name)).dropLast
            else prefixPaths rest (cur ++ "/" ++ name)).filter fun q =>
              !(seen.contains q)) := by
          apply List.filter_congr
          intro q hq
          have hqmem : q ∈ prefixPaths rest (cur ++ "/" ++ name) := by
            revert hq
            cases isFile
            · intro hq
              exact hq
            · intro hq
              exact List.mem_of_mem_dropLast hq
          have hqlen : (cur ++ "/" ++ name).length < q.length :=
            prefixPaths_longer rest (cur ++ "/" ++ name) q hqmem
          have hqne : q ≠ (cur ++ "/" ++ name) := fun he => by
            rw [he] at hqlen
            exact Nat.lt_irrefl _ hqlen
          rw [contains_append_single_ne seen _ q hqne]
        have hnmem : (cur ++ "/" ++ name) ∉ seen := fun hm =>
          hc ((contains_true_iff _ _).mpr hm)
        constructor
        · rw [ih1, hfiltereq, hQF]
          simp [List.filter_cons, hnmem, List.append_assoc]
        · rw [ih2, hfiltereq, hQF, hTail]
          simp [List.filter_cons, hnmem, nodeKey]

theorem pathSegments_mem_ne (p : String) : ∀ s ∈ pathSegments p, s ≠ "" := by
  intro s hs
  unfold pathSegments at hs
  have h := List.mem_filter.mp hs
  simpa using h.2

theorem folderCandidates_nodup (e : String × Dirent) :
    (folderCandidates e).Nodup := by
  unfold folderCandidates
  by_cases h : direntIsFile e.2 = true
  · rw [if_pos h]
    exact (List.dropLast_sublist _).nodup (prefixPaths_nodup _ _)
  · rw [if_neg h]
    exact prefixPaths_nodup _ _

theorem buildGo_spec (hideRoot : Bool) (dd : Nat) :
    ∀ (R : List (String × Dirent)) (seen : List String) (out : List Node),
      (∀ e ∈ R, strStartsWith e.1 "/" = true) →
      (∀ e ∈ R, (prefixPaths (pathSegments e.1) "").getLast? = some e.1) →
      ∃ D : List String,
        D.Nodup ∧
          (∀ q, q ∈ D ↔ q ∈ R.flatMap folderCandidates ∧ q ∉ seen) ∧
          (buildGo "/" hideRoot [] dd R seen out).1 = seen ++ D ∧
          ((buildGo "/" hideRoot [] dd R seen out).2.map nodeKey).Perm
            (out.map nodeKey ++ D.map (fun q => (NodeKind.folder, q)) ++
              (R.filter fun e => direntIsFile e.2).map
                fun e => (NodeKind.file, e.1)) := by
  intro R
  induction R with
  | nil =>
    intro seen out h1 h2
    refine ⟨[], List.nodup_nil, ?_, ?_, ?_⟩
    · intro q
      simp
    · simp [buildGo]
    · simp [buildGo]
  | cons e R ih =>
    intro seen out h1 h2
    obtain ⟨p, d⟩ := e
    have hsw : strStartsWith p "/" = true := h1 (p, d) (List.mem_cons_self _ _)
    have hcanon : (prefixPaths (pathSegments p) "").getLast? = some p :=
      h2 (p, d) (List.mem_cons_self _ _)
    have hsegne : pathSegments p ≠ [] := by
      intro h0
      rw [h0] at hcanon
      simp [prefixPaths] at hcanon
    obtain ⟨fileName, hgl⟩ : ∃ f, (pathSegments p).getLast? = some f := by
      cases hq : (pathSegments p).getLast? with
      | none => exact absurd (List.getLast?_eq_none_iff.mp hq) hsegne
      | some f => exact ⟨f, rfl⟩
    have hstep : buildGo "/" hideRoot [] dd ((p, d) :: R) seen out =
        buildGo "/" hideRoot [] dd R
          (walkSegs (direntIsFile d) "/" hideRoot dd (pathSegments p) "" 0
            seen out).1
          (walkSegs (direntIsFile d) "/" hideRoot dd (pathSegments p) "" 0
            seen out).2 := by
      simp [buildGo, hsw, hgl, isHiddenFile]
    obtain ⟨w1, w2⟩ :=
      walkSegs_spec (direntIsFile d) hideRoot dd (pathSegments p) "" 0 seen
        out (pathSegments_mem_ne p) (Or.inl rfl)
    have hfc : (if direntIsFile d = true then
          (prefixPaths (pathSegments p) "").dropLast
        else prefixPaths (pathSegments p) "") = folderCandidates (p, d) := by
      rfl
    rw [hfc] at w1 w2
    have htail : (if direntIsFile d = true then
          (match (prefixPaths (pathSegments p) "").getLast? with
            | some q => [(NodeKind.file, q)]
            | none => ([] : List (NodeKind × String)))
        else []) =
        (if direntIsFile d = true then [(NodeKind.file, p)] else []) := by
      rw [hcanon]
    rw [htail] at w2
    obtain ⟨D1, hD1nodup, hD1mem, hD1seen, hD1perm⟩ :=
      ih ((walkSegs (direntIsFile d) "/" hideRoot dd (pathSegments p) "" 0
            seen out).1)
        ((walkSegs (direntIsFile d) "/" hideRoot dd (pathSegments p) "" 0
            seen out).2)
        (fun x hx => h1 x (List.mem_cons_of_mem _ hx))
        (fun x hx => h2 x (List.mem_cons_of_mem _ hx))
    rw [w1] at hD1mem hD1seen
    refine ⟨(folderCandidates (p, d)).filter (fun q => !(seen.contains q)) ++
        D1, ?_, ?_, ?_, ?_⟩
    · refine List.Nodup.append ?_ hD1nodup ?_
      · exact (List.filter_sublist _).nodup (folderCandidates_nodup (p, d))
      · rw [List.disjoint_left]
        intro q hq0 hq1
        have := ((hD1mem q).mp hq1).2
        exact this (List.mem_append.mpr (Or.inr hq0))
    · intro q
      constructor
      · intro hq
        rcases List.mem_append.mp hq with h | h
        · obtain ⟨hm, hb⟩ := List.mem_filter.mp h
          have hns : q ∉ seen := by
            intro hx
            rw [(contains_true_iff seen q).mpr hx] at hb
            simp at hb
          exact ⟨List.mem_flatMap.mpr
              ⟨(p, d), List.mem_cons_self _ _, hm⟩, hns⟩
        · obtain ⟨hm, hns⟩ := (hD1mem q).mp h
          refine ⟨?_, fun hx => hns (List.mem_append.mpr (Or.inl hx))⟩
          rw [List.flatMap_cons]
          exact List.mem_append.mpr (Or.inr hm)
      · rintro ⟨hm, hns⟩
        rw [List.flatMap_cons] at hm
        rcases List.mem_append.mp hm with h | h
        · refine List.mem_append.mpr (Or.inl ?_)
          refine List.mem_filter.mpr ⟨h, ?_⟩
          have : seen.contains q = false := by
            rw [← Bool.not_eq_true]
            intro hx
            exact hns ((contains_true_iff seen q).mp hx)
          rw [this]
          rfl
        · by_cases hq0 :
            q ∈ (folderCandidates (p, d)).filter fun q => !(seen.contains q)
          · exact List.mem_append.mpr (Or.inl hq0)
          · refine List.mem_append.mpr (Or.inr ?_)
            refine (hD1mem q).mpr ⟨h, ?_⟩
            intro hx
            rcases List.mem_append.mp hx with hx1 | hx1
            · exact hns hx1
            · exact hq0 hx1
    · rw [hstep, w1, hD1seen, List.append_assoc]
    · rw [hstep]
      refine hD1perm.trans ?_
      rw [w2, List.filter_cons]
      by_cases hdf : direntIsFile d = true
      · simp only [hdf, if_true, List.map_cons, List.map_append,
          List.append_assoc, List.singleton_append]
        exact List.Perm.append_left _
          (List.Perm.append_left _ List.perm_middle.symm)
      · simp only [hdf, if_false, Bool.false_eq_true, List.map_append,
          List.append_nil, List.append_assoc]
        exact List.Perm.refl _

theorem mem_of_lookup_eq_some {β : Type} {l : List (String × β)} {q : String}
    {v : β} (h : List.lookup q l = some v) : (q, v) ∈ l := by
  induction l with
  | nil => simp [List.lookup] at h
  | cons kv rest ih =>
    obtain ⟨k, b⟩ := kv
    by_cases hq : q = k
    · subst hq
      rw [lookup_cons_same _ _ _ _ rfl] at h
      injection h with h
      subst h
      exact List.mem_cons_self _ _
    · rw [lookup_cons_other _ _ _ _ hq] at h
      exact List.mem_cons_of_mem _ (ih h)

theorem mem_dropLast_or_eq_getLast {α : Type} {l : List α} {q a : α}
    (hq : q ∈ l) (h : l.getLast? = some a) : q ∈ l.dropLast ∨ q = a := by
  have hne : l ≠ [] := by
    rintro rfl
    simp at h
  have hlast : l.getLast hne = a := by
    rw [List.getLast?_eq_getLast l hne] at h
    injection h
  rw [← List.dropLast_append_getLast hne] at hq
  rcases List.mem_append.mp hq with h1 | h1
  · exact Or.inl h1
  · exact Or.inr ((List.mem_singleton.mp h1).trans hlast)

theorem mem_of_getLast?_eq_some {α : Type} {l : List α} {a : α}
    (h : l.getLast? = some a) : a ∈ l := by
  have hne : l ≠ [] := by
    rintro rfl
    simp at h
  have hlast : l.getLast hne = a := by
    rw [List.getLast?_eq_getLast l hne] at h
    injection h
  rw [← hlast]
  exact List.getLast_mem hne

theorem buildFileList_root_eq (files : List (String × Dirent))
    (hideRoot : Bool) :
    buildFileList files "/" hideRoot [] =
      List.insertionSort nodeLE
        (buildGo "/" hideRoot [] (if hideRoot then 0 else 1) files []
          (if hideRoot then []
          else
            [{ kind := NodeKind.folder, name := "/", depth := 0, id := 0,
                fullPath := "/" }])).2 := by
  cases hideRoot <;> simp [buildFileList]

/-- Claim C4, amended: for a well-formed map — canonical absolute paths,
    closed under parents (every proper ancestor path of an entry is a folder
    entry), no duplicate keys — building the node list with root `/` and no
    hidden patterns and filtering with an empty collapsed set yields exactly
    one node per map entry (same kind and path), plus the synthetic root
    node when the root is not hidden, sorted with all folders before all
    files and alphabetically by name within a kind. Without parent
    closure the builder additionally emits one folder node for every
    missing ancestor path (see the counterexample). -/
theorem claimC4_treeBuilder_roundTrip :
    ∀ (files : List (String × Dirent)) (hideRoot : Bool),
      (∀ e ∈ files, strStartsWith e.1 "/" = true) →
      (∀ e ∈ files, (prefixPaths (pathSegments e.1) "").getLast? = some e.1) →
      (∀ e ∈ files, ∀ q ∈ (prefixPaths (pathSegments e.1) "").dropLast,
        List.lookup q files = some Dirent.folder) →
      (files.map Prod.fst).Nodup →
      ((filteredFileList (buildFileList files "/" hideRoot []) []).map
            nodeKey).Perm
          ((if hideRoot then [] else [(NodeKind.folder, "/")]) ++
            files.map fun e => (direntKind e.2, e.1)) ∧
        List.Sorted nodeLE
          (filteredFileList (buildFileList files "/" hideRoot []) []) := by
  intro files hideRoot h1 hcanon hclosed hnodup
  rw [filteredFileList_nil_collapsed, buildFileList_root_eq]
  constructor
  swap
  · exact List.sorted_insertionSort nodeLE _
  obtain ⟨D, hDnodup, hDmem, hDseen, hDperm⟩ :=
    buildGo_spec hideRoot (if hideRoot then 0 else 1) files []
      (if hideRoot then []
      else
        [{ kind := NodeKind.folder, name := "/", depth := 0, id := 0,
            fullPath := "/" }])
      h1 hcanon
  refine ((List.perm_insertionSort nodeLE _).map nodeKey).trans
    (hDperm.trans ?_)
  have hseedkeys : ((if hideRoot then []
      else
        [{ kind := NodeKind.folder, name := "/", depth := 0, id := 0,
            fullPath := "/" }] : List Node)).map nodeKey =
      (if hideRoot then [] else [(NodeKind.folder, "/")]) := by
    cases hideRoot <;> simp [nodeKey]
  rw [hseedkeys, List.append_assoc]
  refine List.Perm.append_left _ ?_
  have hnodup2 : ((files.filter fun e => !(direntIsFile e.2)).map
      Prod.fst).Nodup :=
    ((List.filter_sublist files).map Prod.fst).nodup hnodup
  have hDperm2 : D.Perm
      ((files.filter fun e => !(direntIsFile e.2)).map Prod.fst) := by
    refine (List.perm_ext_iff_of_nodup hDnodup hnodup2).mpr ?_
    intro q
    have hDm : q ∈ D ↔ q ∈ files.flatMap folderCandidates := by
      rw [hDmem q]
      simp
    rw [hDm, List.mem_flatMap]
    constructor
    · rintro ⟨e, he, hq⟩
      obtain ⟨pe, de⟩ := e
      by_cases hdf : direntIsFile de = true
      · rw [show folderCandidates (pe, de) =
            (prefixPaths (pathSegments pe) "").dropLast from by
            simp [folderCandidates, hdf]] at hq
        have hm := mem_of_lookup_eq_some (hclosed (pe, de) he q hq)
        refine List.mem_map.mpr ⟨(q, Dirent.folder), ?_, rfl⟩
        exact List.mem_filter.mpr ⟨hm, rfl⟩
      · have hdf2 : direntIsFile de = false := by
          revert hdf
          cases direntIsFile de <;> simp
        rw [show folderCandidates (pe, de) =
            prefixPaths (pathSegments pe) "" from by
            simp [folderCandidates, hdf2]] at hq
        rcases mem_dropLast_or_eq_getLast hq (hcanon (pe, de) he) with h | h
        · have hm := mem_of_lookup_eq_some (hclosed (pe, de) he q h)
          refine List.mem_map.mpr ⟨(q, Dirent.folder), ?_, rfl⟩
          exact List.mem_filter.mpr ⟨hm, rfl⟩
        · refine List.mem_map.mpr ⟨(pe, de), ?_, h.symm⟩
          refine List.mem_filter.mpr ⟨he, ?_⟩
          rw [hdf2]
          rfl
    · intro hm
      obtain ⟨e, hef, hfst⟩ := List.mem_map.mp hm
      obtain ⟨hemem, hbool⟩ := List.mem_filter.mp hef
      obtain ⟨pe, de⟩ := e
      have hdf : direntIsFile de = false := by
        revert hbool
        cases direntIsFile de <;> simp
      refine ⟨(pe, de), hemem, ?_⟩
      rw [show folderCandidates (pe, de) =
          prefixPaths (pathSegments pe) "" from by
          simp [folderCandidates, hdf]]
      have hq : pe ∈ prefixPaths (pathSegments pe) "" :=
        mem_of_getLast?_eq_some (hcanon (pe, de) hemem)
      have hpq : pe = q := hfst
      rw [← hpq]
      exact hq
  have hstep1 : (D.map fun q => (NodeKind.folder, q)).Perm
      ((files.filter fun e => !(direntIsFile e.2)).map
        fun e => (direntKind e.2, e.1)) := by
    refine (hDperm2.map _).trans ?_
    rw [List.map_map]
    have he : ((files.filter fun e => !(direntIsFile e.2)).map
          ((fun q => (NodeKind.folder, q)) ∘ Prod.fst)) =
        ((files.filter fun e => !(direntIsFile e.2)).map
          fun e => (direntKind e.2, e.1)) := by
      apply List.map_congr_left
      intro e he
      obtain ⟨hemem, hbool⟩ := List.mem_filter.mp he
      obtain ⟨pe, de⟩ := e
      cases de with
      | file c b => simp [direntIsFile] at hbool
      | folder => simp [direntKind]
    rw [he]
  have hstep2 : ((files.filter fun e => direntIsFile e.2).map
        fun e => (NodeKind.file, e.1)) =
      ((files.filter fun e => direntIsFile e.2).map
        fun e => (direntKind e.2, e.1)) := by
    apply List.map_congr_left
    intro e he
    obtain ⟨hemem, hbool⟩ := List.mem_filter.mp he
    obtain ⟨pe, de⟩ := e
    cases de with
    | file c b => simp [direntKind]
    | folder => simp [direntIsFile] at hbool
  have hstep3 : ((files.filter fun e => direntIsFile e.2).map
        fun e => (NodeKind.file, e.1)).Perm
      ((files.filter fun e => direntIsFile e.2).map
        fun e => (direntKind e.2, e.1)) := by
    rw [hstep2]
  refine (List.Perm.append hstep1 hstep3).trans ?_
  have hpart := (List.filter_append_perm (fun e => direntIsFile e.2)
    files).map (fun e => (direntKind e.2, e.1))
  rw [List.map_append] at hpart
  exact List.perm_append_comm.trans hpart

/-- Witness for `claimC4_treeBuilder_roundTrip`: the parent-closed map
    `/a ↦ folder, /a/b.ts ↦ file, /c.ts ↦ file` with the root shown yields
    the root plus one node per entry, folders first, names sorted. -/
theorem claimC4_treeBuilder_roundTrip_witness :
    ((∀ e ∈ ([("/a", Dirent.folder), ("/a/b.ts", Dirent.file "x" false),
          ("/c.ts", Dirent.file "y" false)] : List (String × Dirent)),
        strStartsWith e.1 "/" = true) ∧
      (∀ e ∈ ([("/a", Dirent.folder), ("/a/b.ts", Dirent.file "x" false),
          ("/c.ts", Dirent.file "y" false)] : List (String × Dirent)),
        (prefixPaths (pathSegments e.1) "").getLast? = some e.1) ∧
      (∀ e ∈ ([("/a", Dirent.folder), ("/a/b.ts", Dirent.file "x" false),
          ("/c.ts", Dirent.file "y" false)] : List (String × Dirent)),
        ∀ q ∈ (prefixPaths (pathSegments e.1) "").dropLast,
          List.lookup q
            ([("/a", Dirent.folder), ("/a/b.ts", Dirent.file "x" false),
              ("/c.ts", Dirent.file "y" false)] : List (String × Dirent)) =
            some Dirent.folder)) ∧
      ((filteredFileList
            (buildFileList
              [("/a", Dirent.folder), ("/a/b.ts", Dirent.file "x" false),
                ("/c.ts", Dirent.file "y" false)]
              "/" false [])
            []).map nodeKey).Perm
        ((if false then [] else [(NodeKind.folder, "/")]) ++
          ([("/a", Dirent.folder), ("/a/b.ts", Dirent.file "x" false),
            ("/c.ts", Dirent.file "y" false)] :
              List (String × Dirent)).map fun e => (direntKind e.2, e.1)) ∧
      List.Sorted nodeLE
        (filteredFileList
          (buildFileList
            [("/a", Dirent.folder), ("/a/b.ts", Dirent.file "x" false),
              ("/c.ts", Dirent.file "y" false)]
            "/" false [])
          []) :=
  ⟨⟨by decide, by decide, by decide⟩,
    (claimC4_treeBuilder_roundTrip
        [("/a", Dirent.folder), ("/a/b.ts", Dirent.file "x" false),
          ("/c.ts", Dirent.file "y" false)]
        false (by decide) (by decide) (by decide) (by decide)).1,
    (claimC4_treeBuilder_roundTrip
        [("/a", Dirent.folder), ("/a/b.ts", Dirent.file "x" false),
          ("/c.ts", Dirent.file "y" false)]
        false (by decide) (by decide) (by decide) (by decide)).2⟩

/-- Claim C5: on the node list
    `[folder A (depth 0), file A/x (1), folder A/B (1), file A/B/y (2),
      folder C (0)]` with collapsed set `\x7b A \x7d`, the visibility filter
    returns exactly `[A, C]`: entering the collapsed folder `A` sets its
    depth 0 as the suppression threshold, every deeper subsequent node is
    dropped, and `C`, arriving at exactly the threshold depth, clears it and
    is kept. -/
theorem claimC5_collapseFilter :
    filteredFileList
        [{ kind := NodeKind.folder, id := 0, name := "A", fullPath := "/A",
            depth := 0 },
          { kind := NodeKind.file, id := 1, name := "x", fullPath := "/A/x",
            depth := 1 },
          { kind := NodeKind.folder, id := 2, name := "B",
            fullPath := "/A/B", depth := 1 },
          { kind := NodeKind.file, id := 3, name := "y",
            fullPath := "/A/B/y", depth := 2 },
          { kind := NodeKind.folder, id := 4, name := "C", fullPath := "/C",
            depth := 0 }]
        ["/A"] =
      [{ kind := NodeKind.folder, id := 0, name := "A", fullPath := "/A",
          depth := 0 },
        { kind := NodeKind.folder, id := 4, name := "C", fullPath := "/C",
          depth := 0 }] := by
  decide

/-- Claim C4, as frozen, is refuted: the one-entry map `/a/b ↦ file`
    (rootFolder `/`, root not hidden, no hidden patterns, empty collapsed
    set) produces three nodes — the synthetic root, an ancestor folder node
    `/a` that is not a map entry, and the file `/a/b` — not one node per map
    entry plus the root (which would be two). -/
theorem claimC4_counterexample :
    (filteredFileList
          (buildFileList [("/a/b", Dirent.file "" false)] "/" false [])
          []).map nodeKey =
        [(NodeKind.folder, "/"), (NodeKind.folder, "/a"),
          (NodeKind.file, "/a/b")] ∧
      ¬((filteredFileList
            (buildFileList [("/a/b", Dirent.file "" false)] "/" false [])
            []).length =
          [("/a/b", Dirent.file "" false)].length + 1) := by
  decide

end Bolt
